import Mathlib

/-!
Verification of the ESF_renamer repository (word_to_pdf.py, PID_RENAME.py,
docx2pdf_converter.py) against its natural-language specification.

Modelling conventions:
- Python strings are `List Char` (`FName`).
- A directory is the list of filenames it contains; the output tree of the
  reconciliation pass is a list of (directory, filename) records (`FsFile`).
- External effects (the Word/LibreOffice conversion service, PDF text
  extraction, the langdetect call, OS rename success) are parameters of the
  embedded functions: the embedding covers exactly the control flow that the
  Python source performs on their results.
- Unbounded `while` loops of the source are embedded with an explicit fuel
  argument and return `Option`; `none` means the fuel ran out.  Lemmas below
  show the fuel used by the embeddings is always sufficient, except where the
  source loop genuinely diverges.
- Python's decimal rendering of a nonnegative int (`str(n)`, `f"{n:02d}"`) is
  `pyStrNat` / `pad2`.
-/

abbrev FName := List Char

/-- Decimal digits of `n`, fuelled structural version (fuel `n + 1` always
suffices; see `pyStrNatAux_irrel`). -/
def pyStrNatAux : Nat → Nat → FName
  | 0, _ => []
  | fuel + 1, n =>
    if n < 10 then [Nat.digitChar n]
    else pyStrNatAux fuel (n / 10) ++ [Nat.digitChar (n % 10)]

/-- Python `str(n)` for a nonnegative int: decimal digits, no padding. -/
def pyStrNat (n : Nat) : FName := pyStrNatAux (n + 1) n

/-- Python `f"{n:02d}"`: decimal digits zero-padded to a minimum width of 2. -/
def pad2 (n : Nat) : FName := if n < 10 then '0' :: pyStrNat n else pyStrNat n

/-- Candidate name `f"{base}_{c:02d}{ext}"` used by every disambiguation loop
in word_to_pdf.py. -/
def mkCounterName (base ext : FName) (c : Nat) : FName := base ++ '_' :: (pad2 c ++ ext)

/-- Candidate name `f"{base}_{c}{ext}"` (unpadded counter) used by the
disambiguation loop in PID_RENAME.py process_and_rename_document. -/
def mkCounterName1 (base ext : FName) (c : Nat) : FName := base ++ '_' :: (pyStrNat c ++ ext)

/-- First `k ≥ start` with `p k = true`, searching at most `fuel` candidates. -/
def firstSat (p : Nat → Bool) : Nat → Nat → Option Nat
  | _, 0 => none
  | c, fuel + 1 => if p c then some c else firstSat p (c + 1) fuel

/-- `while os.path.exists(candidate): counter += 1` loops: first counter from
`start` whose candidate name is not in `dir`. -/
def findFreeName (dir : List FName) (mk : Nat → FName) (start fuel : Nat) : Option FName :=
  (firstSat (fun c => !(decide (mk c ∈ dir))) start fuel).map mk

/-- Python `str.strip()` (whitespace from both ends). -/
def pyStrip (s : FName) : FName :=
  ((s.dropWhile Char.isWhitespace).reverse.dropWhile Char.isWhitespace).reverse

/-- Python `str.isdigit()` restricted to ASCII: nonempty and all digits. -/
def pyIsDigit (s : FName) : Bool := !s.isEmpty && s.all Char.isDigit

/-- `os.path.splitext` on a basename: split at the last dot unless every
character before it is a dot. -/
def splitext (p : FName) : FName × FName :=
  match p.reverse.findIdx? (fun c => c == '.') with
  | none => (p, [])
  | some ir =>
    let i := p.length - 1 - ir
    if (p.take i).any (fun c => !(c == '.')) then (p.take i, p.drop i) else (p, [])

/-- Python `str.lower()` (ASCII model). -/
def lowerName (s : FName) : FName := s.map Char.toLower

/-- `country.replace(" ", "_")`. -/
def underscored (s : FName) : FName := s.map (fun c => if c == ' ' then '_' else c)

def pdfExt : FName := ".pdf".toList

/-- `file.lower().endswith('.pdf')`. -/
def isPdfName (n : FName) : Bool := decide (pdfExt <:+ lowerName n)

/-- Python `sep.join(parts)` for a one-character separator. -/
def pyJoin (sep : Char) : List FName → FName
  | [] => []
  | [x] => x
  | x :: y :: rest => x ++ sep :: pyJoin sep (y :: rest)

/-- Python `s.split(sep)` for a one-character separator (no collapsing). -/
def pySplit (sep : Char) : FName → List FName
  | [] => [[]]
  | c :: rest =>
    let r := pySplit sep rest
    if c == sep then [] :: r
    else
      match r with
      | [] => [[c]]
      | h :: t => (c :: h) :: t

/-- Dictionary lookup `d[k]` / `k in d` on an association list. -/
def lookupName : List (FName × FName) → FName → Option FName
  | [], _ => none
  | kv :: rest, key => if kv.1 = key then some kv.2 else lookupName rest key

/-- Dictionary assignment `d[k] = v` (overwrite if present, else append). -/
def dictInsert (m : List (FName × FName)) (k v : FName) : List (FName × FName) :=
  if m.any (fun kv => kv.1 == k) then m.map (fun kv => if kv.1 == k then (k, v) else kv)
  else m ++ [(k, v)]

/-- word_to_pdf.py get_unique_filename, over a directory given as the list of
names it contains (the source's dirname/basename round trip is the identity in
this single-directory view).  `none` only on fuel exhaustion. -/
def get_unique_filename (dir : List FName) (base : FName) : Option FName :=
  if base ∈ dir then
    findFreeName dir (mkCounterName (splitext base).1 (splitext base).2) 1 (dir.length + 1)
  else some base

/-- Character class `[0-9O]` (with `allowO`) or `\d` (without). -/
def pidChar (allowO : Bool) (c : Char) : Bool := c.isDigit || (allowO && c == 'O')

/-- The regex `P[0-9O]{6}` (or `P\d{6}`) matches in `s` at position `i`. -/
def matchPidAt (allowO : Bool) (s : FName) (i : Nat) : Bool :=
  match s.drop i with
  | [] => false
  | c :: rest => c == 'P' && (rest.take 6).length == 6 && (rest.take 6).all (pidChar allowO)

/-- Leftmost match position of the project-ID regex in `s`
(`re.findall(...)[0]` / `re.search`). -/
def firstMatchIdx (allowO : Bool) (s : FName) : Option Nat :=
  firstSat (matchPidAt allowO s) 0 s.length

/-- `'P' + pid[1:].replace('O', '0')` from word_to_pdf.py extract_project_id. -/
def pidNormalize (s : FName) : FName :=
  'P' :: (s.drop 1).map (fun c => if c == 'O' then '0' else c)

/-- Page loop shared by both content extractors: first page with a match wins,
the leftmost match of that page is returned (normalized when `norm`). -/
def extractPagesLoop (allowO norm : Bool) : List FName → Option FName
  | [] => none
  | t :: rest =>
    match firstMatchIdx allowO t with
    | some i => some (if norm then pidNormalize ((t.drop i).take 7) else (t.drop i).take 7)
    | none => extractPagesLoop allowO norm rest

/-- word_to_pdf.py extract_project_id: pattern `P[0-9O]{6}` over the first
`min(pages, 10)` pages, O normalized to 0; `none` for an unreadable PDF
(`rr = none`) or no match. -/
def extract_project_id (rr : Option (List FName)) : Option FName :=
  match rr with
  | none => none
  | some pages => extractPagesLoop true true (pages.take 10)

/-- PID_RENAME.py extract_project_id: pattern `P\d{6}` over the first
`min(pages, 10)` pages, no O handling, no normalization. -/
def extract_project_id_pidr (rr : Option (List FName)) : Option FName :=
  match rr with
  | none => none
  | some pages => extractPagesLoop false false (pages.take 10)

/-- Text gathering loop of word_to_pdf.py detect_language: append nonempty
page texts, stop once more than 1000 characters are collected. -/
def gatherText : List FName → FName → FName
  | [], acc => acc
  | t :: rest, acc =>
    if t.isEmpty then gatherText rest acc
    else
      let acc2 := acc ++ t
      if 1000 < acc2.length then acc2 else gatherText rest acc2

/-- word_to_pdf.py detect_language. `rr = none` models an unreadable PDF;
`detectFn` models langdetect.detect, `none` being LangDetectException. -/
def detect_language (rr : Option (List FName)) (detectFn : FName → Option FName) : FName :=
  match rr with
  | none => "NON".toList
  | some pages =>
    let all_text := gatherText (pages.take 3) []
    if 100 < all_text.length then
      match detectFn all_text with
      | some lang => if lang = "en".toList then "EN".toList else "NON".toList
      | none => "NON".toList
    else "NON".toList

/-- `re.match(r'P\d{6}', s)`: anchored at the start only, not at the end. -/
def matchP6prefix (s : FName) : Bool :=
  match s with
  | 'P' :: rest => (rest.take 6).length == 6 && (rest.take 6).all Char.isDigit
  | _ => false

/-- Per-row body of the mapping loop in word_to_pdf.py
load_project_country_mapping. -/
def loadStep (m : List (FName × FName)) (row : FName × FName) : List (FName × FName) :=
  let project_id0 := pyStrip row.1
  let country := pyStrip row.2
  if project_id0.isEmpty || country.isEmpty then m
  else
    let project_id1 :=
      if !(project_id0.head? == some 'P') && pyIsDigit project_id0 then 'P' :: project_id0
      else project_id0
    let project_id := project_id1.filter (fun c => c == 'P' || c.isDigit)
    if matchP6prefix project_id then dictInsert m project_id country else m

/-- word_to_pdf.py load_project_country_mapping, over the parsed rows
(identifier cell, country cell) already rendered to strings. -/
def load_project_country_mapping (rows : List (FName × FName)) : List (FName × FName) :=
  rows.foldl loadStep []

/-- The spec's words for a ProjectIdentifier key: `P` followed by exactly six
digits (used to compare the claim against `load_project_country_mapping`). -/
def exactP6 (s : FName) : Bool := s.length == 7 && matchP6prefix s

/-- Externals consumed by word_to_pdf.py process_file for one input file. -/
structure PFEnv where
  conversionOk : Bool
  contentPid : Option FName
  filenamePid : Option FName
  language : FName
  firstRenameOk : Bool
  finalRenameOk : Bool

/-- The (success, error, project_id) part of process_file's returned tuple. -/
structure PResult where
  success : Bool
  errorMsg : Option FName
  pid : Option FName
deriving DecidableEq

/-- Base-identifier disambiguation in process_file / copy_existing_pdfs:
`{pid}.pdf`, else `{pid}_{counter:02d}.pdf`. -/
def basePidTarget (dir : List FName) (pid : FName) : Option FName :=
  if pid ++ pdfExt ∈ dir then findFreeName dir (mkCounterName pid pdfExt) 1 (dir.length + 1)
  else some (pid ++ pdfExt)

/-- Final-name disambiguation in process_file / copy_existing_pdfs: accepts a
candidate that is free or equal to the file being renamed (`self`). -/
def finalTarget (dir : List FName) (self fbase : FName) : Option FName :=
  let dirF := dir.filter (fun x => !(x == self))
  if fbase ++ pdfExt ∈ dirF then
    findFreeName dirF (mkCounterName fbase pdfExt) 1 (dirF.length + 1)
  else some (fbase ++ pdfExt)

/-- word_to_pdf.py process_file with rename_with_pid=True, in the target
directory view.  `stem` is the input file's stem; successful conversion writes
`output_path`; renames move the file within `dir`. -/
def process_file (dir : List FName) (stem : FName) (env : PFEnv)
    (mapping : List (FName × FName)) : Option (List FName × PResult) :=
  match get_unique_filename dir (stem ++ pdfExt) with
  | none => none
  | some output_path =>
    if env.conversionOk then
      let dir1 := output_path :: dir
      match (match env.contentPid with | some p => some p | none => env.filenamePid) with
      | none => some (dir1, ⟨true, none, none⟩)
      | some pid =>
        match basePidTarget dir1 pid with
        | none => none
        | some base_path =>
          if env.firstRenameOk then
            let dir2 := base_path :: dir1.erase output_path
            let country :=
              match lookupName mapping pid with
              | some c => underscored c
              | none => []
            let fbase :=
              if country.isEmpty then pid ++ '_' :: env.language
              else pid ++ '_' :: (country ++ '_' :: env.language)
            match finalTarget dir2 base_path fbase with
            | none => none
            | some final_path =>
              if env.finalRenameOk then
                some (final_path :: dir2.erase base_path, ⟨true, none, some pid⟩)
              else some (dir2, ⟨true, none, some pid⟩)
          else some (dir1, ⟨true, none, none⟩)
    else some (dir, ⟨false, some "conversion failed".toList, none⟩)

/-- PID_RENAME.py duplicate handling: `{pid}.pdf` if free, else
`{pid}_{counter}.pdf` with an UNPADDED counter starting at 1. -/
def pidRenameTarget (dir : List FName) (pid : FName) : Option FName :=
  if pid ++ pdfExt ∈ dir then findFreeName dir (mkCounterName1 pid pdfExt) 1 (dir.length + 1)
  else some (pid ++ pdfExt)

/-- Create a file (no-op when the name exists: an overwriting write). -/
def fsInsert (st : List FName) (n : FName) : List FName := if n ∈ st then st else n :: st

/-- POSIX `os.rename`: the source disappears, the target is (over)written. -/
def os_rename_nm (st : List FName) (src tgt : FName) : List FName := fsInsert (st.erase src) tgt

/-- PID_RENAME.py process_and_rename_document on one directory: `convOk` is
whether docx2pdf's convert succeeded, `pidResult` the extractor's result on the
(converted) PDF.  Returns the new directory contents and the success flag. -/
def process_and_rename_document (st : List FName) (docname : FName) (convOk : Bool)
    (pidResult : Option FName) : Option (List FName × Bool) :=
  let suffix := lowerName (splitext docname).2
  if suffix = ".doc".toList ∨ suffix = ".docx".toList then
    if convOk then
      let converted := (splitext docname).1 ++ pdfExt
      let st1 := fsInsert st converted
      match pidResult with
      | some pid =>
        match pidRenameTarget st1 pid with
        | none => none
        | some newname => some ((fsInsert (st1.erase converted) newname).erase docname, true)
      | none => some (st1.erase converted, false)
    else some (st, false)
  else
    match pidResult with
    | some pid =>
      match pidRenameTarget st pid with
      | none => none
      | some newname => some (fsInsert (st.erase docname) newname, true)
    | none => some (st, false)

/-- Tail of docx2pdf_converter.py convert_with_libreoffice: after the external
conversion wrote `default_output`, rename it to the requested `output_file`
whenever the two differ — without probing `output_file` for existence. -/
def convert_with_libreoffice_finalize (st : List FName) (output_file default_output : FName) :
    List FName :=
  if output_file ≠ default_output ∧ default_output ∈ st then
    os_rename_nm st default_output output_file
  else st

/-- One file of the output tree scanned by the reconciliation pass. -/
structure FsFile where
  dir : FName
  fname : FName
deriving DecidableEq

/-- `re.search(r'(P\d{6})', filename)`: the leftmost 7-character match. -/
def firstPidIn (s : FName) : Option FName :=
  match firstMatchIdx false s with
  | some i => some ((s.drop i).take 7)
  | none => none

/-- The pure decision part of apply_country_mapping_to_existing_files for one
filename: `some (pid, country, parts)` iff the file will be renamed. -/
def reconPlan (mapping : List (FName × FName)) (fn : FName) :
    Option (FName × FName × List FName) :=
  match firstPidIn fn with
  | none => none
  | some pid =>
    match lookupName mapping pid with
    | none => none
    | some c0 =>
      let country := underscored c0
      if decide (country <:+: fn) then none
      else
        let parts := if '_' ∈ fn then pySplit '_' fn else [fn.take (fn.length - 4)]
        if parts.head? = some pid then some (pid, country, parts) else none

/-- Initial candidate of the reconciliation rename (country inserted after the
project ID). -/
def reconInit (pid country : FName) (parts : List FName) : FName :=
  if 1 < parts.length then pyJoin '_' (pid :: country :: parts.tail)
  else pid ++ '_' :: (country ++ pdfExt)

/-- Body of the duplicate-name `while` loop in
apply_country_mapping_to_existing_files: next candidate for `counter`. -/
def reconNext (pid country : FName) (parts : List FName) (counter : Nat) : FName :=
  let lastPart := parts.getLast?.getD []
  if 1 < parts.length ∧ pdfExt <:+ lastPart then
    if pyIsDigit ((pySplit '.' lastPart).head?.getD []) then
      pyJoin '_' (pid :: country :: parts.tail)
    else
      pyJoin '_' (pid :: country :: (parts.tail.dropLast ++ [pad2 counter ++ pdfExt]))
  else pyJoin '_' (pid :: country :: (parts.tail ++ [pad2 counter ++ pdfExt]))

/-- The duplicate-name `while` loop itself (fuelled): keep advancing the
candidate while it exists in the tree and differs from the original file. -/
def reconLoop (st : List FsFile) (d orig : FName) (pid country : FName) (parts : List FName) :
    FName → Nat → Nat → Option FName
  | _, _, 0 => none
  | cur, counter, fuel + 1 =>
    if (⟨d, cur⟩ : FsFile) ∈ st ∧ cur ≠ orig then
      reconLoop st d orig pid country parts (reconNext pid country parts counter) (counter + 1) fuel
    else some cur

/-- One scanned file of the reconciliation pass: decision, loop, rename. -/
def reconStep (mapping : List (FName × FName)) (st : List FsFile) (f : FsFile) (fuel : Nat) :
    Option (List FsFile × Bool) :=
  match reconPlan mapping f.fname with
  | none => some (st, false)
  | some pcp =>
    match reconLoop st f.dir f.fname pcp.1 pcp.2.1 pcp.2.2 (reconInit pcp.1 pcp.2.1 pcp.2.2)
        1 fuel with
    | none => none
    | some newname => some (⟨f.dir, newname⟩ :: st.erase f, true)

/-- Iteration of the reconciliation pass over the pre-scanned file list. -/
def reconGo (mapping : List (FName × FName)) (fuel : Nat) :
    List FsFile → List FsFile → Nat → Option (List FsFile × Nat)
  | [], st, acc => some (st, acc)
  | f :: rest, st, acc =>
    match reconStep mapping st f fuel with
    | none => none
    | some sb => reconGo mapping fuel rest sb.1 (if sb.2 then acc + 1 else acc)

/-- word_to_pdf.py apply_country_mapping_to_existing_files: scan all PDFs of
the output tree once, then process each against the tree state.  Returns the
final tree and `updated_count`; `none` when the inner `while` loop diverges
past the given fuel. -/
def apply_country_mapping_to_existing_files (mapping : List (FName × FName)) (st : List FsFile)
    (fuel : Nat) : Option (List FsFile × Nat) :=
  if mapping.isEmpty then some (st, 0)
  else reconGo mapping fuel (st.filter (fun e => isPdfName e.fname)) st 0

/-- One per-file outcome aggregated by the orchestrator. -/
structure ConvResult where
  success : Bool
  errMsg : Option FName
deriving DecidableEq

/-- word_to_pdf.py process_batch: consumes the per-file results (printing
errors) and returns `len(batch)` — it does not report success/failure counts. -/
def process_batch (results : List ConvResult) : Nat := results.length

/-- The batch loop of convert_folder_to_pdf: `successful`/`failed` are
initialized to 0 and never updated by the loop body. -/
def convert_folder_go : List (List ConvResult) → Nat × Nat → Nat × Nat
  | [], counts => counts
  | b :: rest, counts =>
    let _n := process_batch b
    convert_folder_go rest counts

/-- The (successful, failed) pair printed by convert_folder_to_pdf's summary. -/
def convert_folder_counts (batches : List (List ConvResult)) : Nat × Nat :=
  convert_folder_go batches (0, 0)

/-- Number of per-file results whose success flag is true (the count the
spec's summary is supposed to report). -/
def actualSucceeded (batches : List (List ConvResult)) : Nat :=
  (batches.flatten.filter (fun r => r.success)).length

/-- Number of per-file results whose success flag is false. -/
def actualFailed (batches : List (List ConvResult)) : Nat :=
  (batches.flatten.filter (fun r => !r.success)).length

/-- Mapping used by the concrete reconciliation scenarios below. -/
def exMapping : List (FName × FName) := [("P123456".toList, "Kenya".toList)]

def exDirName : FName := "out".toList

def exOrig10 : FName := "P123456_01.pdf".toList

def exParts10 : List FName := ["P123456".toList, "01.pdf".toList]

def exCand10 : FName := "P123456_Kenya_01.pdf".toList

/-- Output tree on which the reconciliation disambiguation loop diverges:
the candidate with the country inserted already exists. -/
def exSt10 : List FsFile := [⟨exDirName, exOrig10⟩, ⟨exDirName, exCand10⟩]

def exSt7 : List FsFile := [⟨exDirName, "P123456_EN.pdf".toList⟩]

def exSt7b : List FsFile := [⟨exDirName, "P123456_Kenya_EN.pdf".toList⟩]

/-! ## Decimal rendering: basic properties -/

theorem pyStrNatAux_irrel : ∀ f1 f2 n, n < f1 → n < f2 → pyStrNatAux f1 n = pyStrNatAux f2 n := by
  intro f1
  induction f1 with
  | zero => omega
  | succ f ih =>
    intro f2 n h1 h2
    cases f2 with
    | zero => omega
    | succ g =>
      simp only [pyStrNatAux]
      by_cases hn : n < 10
      · simp [hn]
      · have hd : n / 10 < n := Nat.div_lt_self (by omega) (by omega)
        simp only [hn, if_false]
        rw [ih g (n / 10) (by omega) (by omega)]

theorem pyStrNat_eq (n : Nat) :
    pyStrNat n = if n < 10 then [Nat.digitChar n]
      else pyStrNat (n / 10) ++ [Nat.digitChar (n % 10)] := by
  by_cases hn : n < 10
  · simp [pyStrNat, pyStrNatAux, hn]
  · have hd : n / 10 < n := Nat.div_lt_self (by omega) (by omega)
    rw [if_neg hn]
    conv_lhs => simp only [pyStrNat, pyStrNatAux]
    rw [if_neg hn, pyStrNatAux_irrel n (n / 10 + 1) (n / 10) hd (Nat.lt_succ_self _)]
    rfl

theorem pyStrNat_ne_nil (n : Nat) : pyStrNat n ≠ [] := by
  rw [pyStrNat_eq]
  by_cases hn : n < 10 <;> simp [hn]

theorem digitChar_inj_lt10 : ∀ a, a < 10 → ∀ b, b < 10 → Nat.digitChar a = Nat.digitChar b → a = b := by
  decide

theorem pyStrNat_head_ne_zero : ∀ n, 1 ≤ n → (pyStrNat n).head? ≠ some '0' := by
  intro n
  induction n using Nat.strong_induction_on with
  | _ n ih =>
    intro h1
    rw [pyStrNat_eq]
    by_cases hn : n < 10
    · simp only [hn, if_true, List.head?_cons]
      intro hc
      have : Nat.digitChar n = '0' := by simpa using hc
      interval_cases n <;> exact absurd this (by decide)
    · simp only [hn, if_false]
      have hd : n / 10 < n := Nat.div_lt_self (by omega) (by omega)
      have hne := pyStrNat_ne_nil (n / 10)
      cases hh : pyStrNat (n / 10) with
      | nil => exact absurd hh hne
      | cons a l =>
        simp only [List.cons_append, List.head?_cons]
        have := ih (n / 10) hd (by omega)
        rw [hh] at this
        simpa using this

theorem pyStrNat_inj : ∀ m n, pyStrNat m = pyStrNat n → m = n := by
  intro m
  induction m using Nat.strong_induction_on with
  | _ m ih =>
    intro n h
    rw [pyStrNat_eq m, pyStrNat_eq n] at h
    by_cases hm : m < 10 <;> by_cases hn : n < 10
    · simp only [hm, hn, if_true] at h
      exact digitChar_inj_lt10 m hm n hn (by simpa using h)
    · simp only [hm, hn, if_true, if_false] at h
      have := congrArg List.length h
      simp at this
      exact absurd this (pyStrNat_ne_nil (n / 10))
    · simp only [hm, hn, if_true, if_false] at h
      have := congrArg List.length h
      simp at this
      exact absurd this (pyStrNat_ne_nil (m / 10))
    · simp only [hm, hn, if_false] at h
      obtain ⟨h1, h2⟩ := List.append_inj' h (by simp)
      have e1 : m / 10 = n / 10 := ih (m / 10) (Nat.div_lt_self (by omega) (by omega)) _ h1
      have e2 : m % 10 = n % 10 :=
        digitChar_inj_lt10 _ (Nat.mod_lt _ (by omega)) _ (Nat.mod_lt _ (by omega))
          (by simpa using h2)
      omega

theorem pad2_inj : Function.Injective pad2 := by
  intro m n h
  unfold pad2 at h
  by_cases hm : m < 10 <;> by_cases hn : n < 10
  · simp only [hm, hn, if_true] at h
    exact pyStrNat_inj m n (by simpa using h)
  · simp only [hm, hn, if_true, if_false] at h
    have hhd := pyStrNat_head_ne_zero n (by omega)
    rw [← h] at hhd
    simp at hhd
  · simp only [hm, hn, if_true, if_false] at h
    have hhd := pyStrNat_head_ne_zero m (by omega)
    rw [h] at hhd
    simp at hhd
  · simp only [hm, hn, if_false] at h
    exact pyStrNat_inj m n h

theorem mkCounterName_inj (base ext : FName) : Function.Injective (mkCounterName base ext) := by
  intro a b h
  unfold mkCounterName at h
  have h2 : pad2 a = pad2 b := by
    have h3 : pad2 a ++ ext = pad2 b ++ ext := by simpa using h
    exact (List.append_left_inj ext).mp h3
  exact pad2_inj h2

theorem mkCounterName1_inj (base ext : FName) : Function.Injective (mkCounterName1 base ext) := by
  intro a b h
  unfold mkCounterName1 at h
  have h3 : pyStrNat a ++ ext = pyStrNat b ++ ext := by simpa using h
  exact pyStrNat_inj a b ((List.append_left_inj ext).mp h3)

/-! ## The existence-probing counter loop -/

theorem firstSat_some {p : Nat → Bool} : ∀ fuel c k, firstSat p c fuel = some k →
    p k = true ∧ c ≤ k ∧ k < c + fuel ∧ ∀ j, c ≤ j → j < k → p j = false := by
  intro fuel
  induction fuel with
  | zero => intro c k h; simp [firstSat] at h
  | succ f ih =>
    intro c k h
    simp only [firstSat] at h
    by_cases hp : p c = true
    · rw [if_pos hp] at h
      obtain rfl : c = k := by simpa using h
      exact ⟨hp, le_refl c, by omega, fun j h1 h2 => by omega⟩
    · have hp' : p c = false := by revert hp; cases p c <;> simp
      rw [if_neg hp] at h
      obtain ⟨h1, h2, h3, h4⟩ := ih (c + 1) k h
      refine ⟨h1, by omega, by omega, ?_⟩
      intro j hj1 hj2
      rcases Nat.eq_or_lt_of_le hj1 with hj | hj
      · rw [← hj]; exact hp'
      · exact h4 j hj hj2

theorem firstSat_none {p : Nat → Bool} : ∀ fuel c, firstSat p c fuel = none →
    ∀ j, c ≤ j → j < c + fuel → p j = false := by
  intro fuel
  induction fuel with
  | zero => intro c _ j h1 h2; omega
  | succ f ih =>
    intro c h j h1 h2
    simp only [firstSat] at h
    by_cases hp : p c = true
    · rw [if_pos hp] at h; simp at h
    · have hp' : p c = false := by revert hp; cases p c <;> simp
      rw [if_neg hp] at h
      rcases Nat.eq_or_lt_of_le h1 with hj | hj
      · rw [← hj]; exact hp'
      · exact ih (c + 1) h j hj (by omega)

theorem firstSat_isSome {p : Nat → Bool} (fuel c : Nat)
    (hex : ∃ k, c ≤ k ∧ k < c + fuel ∧ p k = true) : (firstSat p c fuel).isSome := by
  cases h : firstSat p c fuel with
  | some k => simp
  | none =>
    obtain ⟨k, h1, h2, h3⟩ := hex
    have := firstSat_none fuel c h k h1 h2
    simp [this] at h3

theorem findFreeName_some {dir : List FName} {mk : Nat → FName} {start fuel : Nat} {r : FName}
    (h : findFreeName dir mk start fuel = some r) :
    r ∉ dir ∧ ∃ k, start ≤ k ∧ r = mk k ∧ ∀ j, start ≤ j → j < k → mk j ∈ dir := by
  unfold findFreeName at h
  cases hs : firstSat (fun c => !(decide (mk c ∈ dir))) start fuel with
  | none => rw [hs] at h; simp at h
  | some k =>
    rw [hs] at h
    obtain rfl : mk k = r := by simpa using h
    obtain ⟨h1, h2, _, h4⟩ := firstSat_some fuel start k hs
    constructor
    · simpa using h1
    · refine ⟨k, h2, rfl, ?_⟩
      intro j hj1 hj2
      have := h4 j hj1 hj2
      simpa using this

theorem findFreeName_isSome (dir : List FName) (mk : Nat → FName)
    (hinj : Function.Injective mk) (start : Nat) :
    (findFreeName dir mk start (dir.length + 1)).isSome := by
  unfold findFreeName
  have hex : ∃ k, start ≤ k ∧ k < start + (dir.length + 1) ∧ (!(decide (mk k ∈ dir))) = true := by
    by_contra hno
    push_neg at hno
    have hsub : ∀ k ∈ Finset.Ico start (start + (dir.length + 1)), mk k ∈ dir.toFinset := by
      intro k hk
      rw [Finset.mem_Ico] at hk
      rw [List.mem_toFinset]
      have := hno k hk.1 hk.2
      simpa using this
    have hcard := Finset.card_le_card_of_injOn mk hsub (fun a _ b _ hab => hinj hab)
    rw [Nat.card_Ico] at hcard
    have hle := dir.toFinset_card_le
    omega
  have h2 := firstSat_isSome (dir.length + 1) start hex
  obtain ⟨k, hk⟩ := Option.isSome_iff_exists.mp h2
  rw [hk]
  simp

/-! ## Probe-then-disambiguate targets -/

theorem probe_target_full (dir : List FName) (seed : FName) (mk : Nat → FName)
    (hinj : Function.Injective mk) :
    ∃ r, (if seed ∈ dir then findFreeName dir mk 1 (dir.length + 1) else some seed) = some r ∧
      r ∉ dir ∧ (seed ∉ dir → r = seed) ∧
      (seed ∈ dir → ∃ k, 1 ≤ k ∧ r = mk k ∧ ∀ j, 1 ≤ j → j < k → mk j ∈ dir) ∧
      ∀ r2, (if seed ∈ r :: dir then findFreeName (r :: dir) mk 1 ((r :: dir).length + 1)
        else some seed) = some r2 → r2 ≠ r := by
  by_cases hmem : seed ∈ dir
  · have hsome := findFreeName_isSome dir mk hinj 1
    obtain ⟨r, hr⟩ := Option.isSome_iff_exists.mp hsome
    obtain ⟨hnotin, k, hk1, hkr, hkmin⟩ := findFreeName_some hr
    refine ⟨r, by rw [if_pos hmem]; exact hr, hnotin, fun h => absurd hmem h,
      fun _ => ⟨k, hk1, hkr, hkmin⟩, ?_⟩
    intro r2 h2
    rw [if_pos (List.mem_cons_of_mem r hmem)] at h2
    have := (findFreeName_some h2).1
    intro hc
    exact this (hc ▸ List.mem_cons_self r dir)
  · refine ⟨seed, by rw [if_neg hmem], hmem, fun _ => rfl, fun h => absurd h hmem, ?_⟩
    intro r2 h2
    rw [if_pos (List.mem_cons_self seed dir)] at h2
    have := (findFreeName_some h2).1
    intro hc
    exact this (hc ▸ List.mem_cons_self seed dir)

/-- Claim C1 (amended): for every directory state and desired filename, the
word_to_pdf.py unique-naming routine returns a name absent from the directory
at call time — the desired name when free, otherwise the name with the
zero-padded two-digit counter suffix `_NN` (NN = 01, 02, ...) inserted before
the extension, incrementing until free — and re-calling it after the returned
name has been created returns a different name.  The PID_RENAME.py
disambiguation loop satisfies the same contract except that its counter suffix
is UNPADDED (`_1`, `_2`, ...) and is always inserted before `.pdf`. -/
theorem claim_C1_amended :
    (∀ (dir : List FName) (base : FName),
      ∃ r, get_unique_filename dir base = some r ∧ r ∉ dir ∧
        (base ∉ dir → r = base) ∧
        (base ∈ dir → ∃ k, 1 ≤ k ∧
          r = mkCounterName (splitext base).1 (splitext base).2 k ∧
          ∀ j, 1 ≤ j → j < k → mkCounterName (splitext base).1 (splitext base).2 j ∈ dir) ∧
        ∀ r2, get_unique_filename (r :: dir) base = some r2 → r2 ≠ r) ∧
    (∀ (dir : List FName) (pid : FName),
      ∃ r, pidRenameTarget dir pid = some r ∧ r ∉ dir ∧
        (pid ++ pdfExt ∉ dir → r = pid ++ pdfExt) ∧
        (pid ++ pdfExt ∈ dir → ∃ k, 1 ≤ k ∧ r = mkCounterName1 pid pdfExt k ∧
          ∀ j, 1 ≤ j → j < k → mkCounterName1 pid pdfExt j ∈ dir) ∧
        ∀ r2, pidRenameTarget (r :: dir) pid = some r2 → r2 ≠ r) := by
  constructor
  · intro dir base
    have h := probe_target_full dir base
      (mkCounterName (splitext base).1 (splitext base).2)
      (mkCounterName_inj (splitext base).1 (splitext base).2)
    simpa [get_unique_filename] using h
  · intro dir pid
    have h := probe_target_full dir (pid ++ pdfExt) (mkCounterName1 pid pdfExt)
      (mkCounterName1_inj pid pdfExt)
    simpa [pidRenameTarget] using h

/-- Claim C1 witness: the amended claim applied to a concrete occupied
directory, with the occupancy hypothesis discharged by computation. -/
theorem claim_C1_witness :
    ∃ r, get_unique_filename ["a.pdf".toList] "a.pdf".toList = some r ∧
      r ∉ ["a.pdf".toList] ∧ r = mkCounterName "a".toList ".pdf".toList 1 := by
  obtain ⟨h1, _⟩ := claim_C1_amended
  obtain ⟨r, hr1, hr2, _, hin, _⟩ := h1 ["a.pdf".toList] "a.pdf".toList
  obtain ⟨k, hk1, hkr, hkmin⟩ := hin (by decide)
  refine ⟨r, hr1, hr2, ?_⟩
  have hk : k = 1 := by
    by_contra hne
    have h2 : (2 : Nat) ≤ k := by omega
    have := hkmin 1 (le_refl 1) (by omega)
    revert this
    decide
  rw [hkr, hk]
  rfl

/-- Claim C1 counterexample: the claim as stated is false for the cited
PID_RENAME.py disambiguation loop: with `P123456.pdf` occupied, the loop
returns `P123456_1.pdf`, not the zero-padded `P123456_01.pdf` that the
`_NN` (NN = 01, 02, ...) format requires. -/
theorem claim_C1_counterexample :
    pidRenameTarget ["P123456.pdf".toList] "P123456".toList = some "P123456_1.pdf".toList ∧
    mkCounterName "P123456".toList pdfExt 1 = "P123456_01.pdf".toList ∧
    "P123456_1.pdf".toList ≠ "P123456_01.pdf".toList := by
  refine ⟨by decide, by decide, by decide⟩

theorem get_unique_filename_not_mem {dir : List FName} {base r : FName}
    (h : get_unique_filename dir base = some r) : r ∉ dir := by
  unfold get_unique_filename at h
  by_cases hm : base ∈ dir
  · rw [if_pos hm] at h
    exact (findFreeName_some h).1
  · rw [if_neg hm] at h
    simp at h
    subst h
    exact hm

theorem basePidTarget_not_mem {dir : List FName} {pid r : FName}
    (h : basePidTarget dir pid = some r) : r ∉ dir := by
  unfold basePidTarget at h
  by_cases hm : pid ++ pdfExt ∈ dir
  · rw [if_pos hm] at h
    exact (findFreeName_some h).1
  · rw [if_neg hm] at h
    simp at h
    subst h
    exact hm

theorem finalTarget_free_or_self {dir : List FName} {self fbase r : FName}
    (h : finalTarget dir self fbase = some r) : r ∉ dir ∨ r = self := by
  unfold finalTarget at h
  by_cases hm : fbase ++ pdfExt ∈ dir.filter (fun x => !(x == self))
  · rw [if_pos hm] at h
    have h1 := (findFreeName_some h).1
    by_cases hs : r = self
    · exact Or.inr hs
    · refine Or.inl fun hr => h1 ?_
      rw [List.mem_filter]
      exact ⟨hr, by simp [hs]⟩
  · rw [if_neg hm] at h
    simp at h
    subst h
    by_cases hs : fbase ++ pdfExt = self
    · exact Or.inr hs
    · refine Or.inl fun hr => hm ?_
      rw [List.mem_filter]
      exact ⟨hr, by simp [hs]⟩

theorem reconLoop_some_spec {st : List FsFile} {d orig pid country : FName} {parts : List FName} :
    ∀ fuel cur counter r, reconLoop st d orig pid country parts cur counter fuel = some r →
      (⟨d, r⟩ : FsFile) ∉ st ∨ r = orig := by
  intro fuel
  induction fuel with
  | zero => intro cur counter r h; simp [reconLoop] at h
  | succ f ih =>
    intro cur counter r h
    simp only [reconLoop] at h
    by_cases hc : (⟨d, cur⟩ : FsFile) ∈ st ∧ cur ≠ orig
    · rw [if_pos hc] at h
      exact ih _ _ r h
    · rw [if_neg hc] at h
      obtain rfl : cur = r := by simpa using h
      rcases not_and_or.mp hc with h1 | h1
      · exact Or.inl h1
      · exact Or.inr (not_not.mp h1)

/-- Claim C2 (amended): every rename/copy stage of word_to_pdf.py probes its
target immediately before the operation and picks a name that is free (the
final-rename and reconciliation loops also accept renaming a file onto its own
current name); but the LibreOffice conversion adapter of docx2pdf_converter.py
renames the converter's default output onto the requested output path without
probing that path — when the requested path is occupied, a file is lost. -/
theorem claim_C2_amended :
    (∀ (dir : List FName) (base r : FName), get_unique_filename dir base = some r → r ∉ dir) ∧
    (∀ (dir : List FName) (pid r : FName), basePidTarget dir pid = some r → r ∉ dir) ∧
    (∀ (dir : List FName) (self fbase r : FName), finalTarget dir self fbase = some r →
      r ∉ dir ∨ r = self) ∧
    (∀ (st : List FsFile) (d orig pid country : FName) (parts : List FName)
      (cur : FName) (counter fuel : Nat) (r : FName),
      reconLoop st d orig pid country parts cur counter fuel = some r →
      (⟨d, r⟩ : FsFile) ∉ st ∨ r = orig) ∧
    (∀ (st : List FName) (out dflt : FName), out ∈ st → out ≠ dflt → dflt ∈ st →
      (convert_with_libreoffice_finalize st out dflt).length + 1 = st.length) := by
  refine ⟨fun _ _ _ h => get_unique_filename_not_mem h,
    fun _ _ _ h => basePidTarget_not_mem h,
    fun _ _ _ _ h => finalTarget_free_or_self h,
    fun _ _ _ _ _ _ cur counter fuel r h => reconLoop_some_spec fuel cur counter r h, ?_⟩
  intro st out dflt hout hne hdflt
  unfold convert_with_libreoffice_finalize
  rw [if_pos ⟨hne, hdflt⟩]
  unfold os_rename_nm fsInsert
  have hmem : out ∈ st.erase dflt := (List.mem_erase_of_ne hne).mpr hout
  rw [if_pos hmem, List.length_erase_of_mem hdflt]
  have : 1 ≤ st.length := List.length_pos.mpr (List.ne_nil_of_mem hdflt)
  omega

/-- Claim C2 witness: the probe property of the unique-naming stage at a
concrete occupied directory. -/
theorem claim_C2_witness : "a_01.pdf".toList ∉ ["a.pdf".toList] :=
  claim_C2_amended.1 ["a.pdf".toList] "a.pdf".toList "a_01.pdf".toList (by decide)

/-- Claim C2 counterexample: the claim as stated is false at the cited
LibreOffice adapter: with the requested output path `out.pdf` already existing,
the post-conversion rename is performed anyway (the target is never probed) and
the existing file is overwritten — the tree shrinks from 2 files to 1. -/
theorem claim_C2_counterexample :
    "out.pdf".toList ∈ ["doc.pdf".toList, "out.pdf".toList] ∧
    convert_with_libreoffice_finalize ["doc.pdf".toList, "out.pdf".toList]
      "out.pdf".toList "doc.pdf".toList = ["out.pdf".toList] ∧
    (["out.pdf".toList] : List FName).length <
      (["doc.pdf".toList, "out.pdf".toList] : List FName).length := by
  refine ⟨by decide, by decide, by decide⟩

/-! ## Content-based identifier extraction -/

theorem matchPidAt_ge_len (allowO : Bool) (t : FName) (i : Nat) (h : t.length ≤ i) :
    matchPidAt allowO t i = false := by
  unfold matchPidAt
  rw [List.drop_eq_nil_of_le h]

theorem matchPidAt_true_lt_len {allowO : Bool} {t : FName} {i : Nat}
    (h : matchPidAt allowO t i = true) : i < t.length := by
  by_contra hc
  rw [matchPidAt_ge_len allowO t i (by omega)] at h
  exact Bool.false_ne_true h

theorem firstMatchIdx_eq_none {allowO : Bool} {t : FName} :
    firstMatchIdx allowO t = none ↔ ∀ i, matchPidAt allowO t i = false := by
  constructor
  · intro h i
    by_cases hi : i < t.length
    · exact firstSat_none t.length 0 h i (Nat.zero_le i) (by omega)
    · exact matchPidAt_ge_len allowO t i (by omega)
  · intro h
    cases hfm : firstMatchIdx allowO t with
    | none => rfl
    | some k =>
      have := (firstSat_some t.length 0 k hfm).1
      rw [h k] at this
      exact absurd this (Bool.false_ne_true)

theorem firstMatchIdx_eq_some {allowO : Bool} {t : FName} {i : Nat}
    (h1 : matchPidAt allowO t i = true) (h2 : ∀ j, j < i → matchPidAt allowO t j = false) :
    firstMatchIdx allowO t = some i := by
  cases hfm : firstMatchIdx allowO t with
  | none =>
    have := firstMatchIdx_eq_none.mp hfm i
    rw [this] at h1
    exact absurd h1 Bool.false_ne_true
  | some k =>
    obtain ⟨hk1, _, _, hk4⟩ := firstSat_some t.length 0 k hfm
    rcases Nat.lt_trichotomy k i with hlt | heq | hgt
    · rw [h2 k hlt] at hk1
      exact absurd hk1 Bool.false_ne_true
    · rw [heq]
    · have := hk4 i (Nat.zero_le i) hgt
      rw [this] at h1
      exact absurd h1 Bool.false_ne_true

theorem extractPagesLoop_none (allowO norm : Bool) :
    ∀ L : List FName, (∀ t ∈ L, ∀ i, matchPidAt allowO t i = false) →
      extractPagesLoop allowO norm L = none := by
  intro L
  induction L with
  | nil => intro _; rfl
  | cons t rest ih =>
    intro h
    have hn : firstMatchIdx allowO t = none :=
      firstMatchIdx_eq_none.mpr (h t (List.mem_cons_self t rest))
    simp only [extractPagesLoop, hn]
    exact ih fun u hu i => h u (List.mem_cons_of_mem t hu) i

theorem extractPagesLoop_found (allowO norm : Bool) :
    ∀ (pre : List FName) (t : FName) (post : List FName) (i : Nat),
      (∀ u ∈ pre, ∀ j, matchPidAt allowO u j = false) →
      matchPidAt allowO t i = true → (∀ j, j < i → matchPidAt allowO t j = false) →
      extractPagesLoop allowO norm (pre ++ t :: post) =
        some (if norm then pidNormalize ((t.drop i).take 7) else (t.drop i).take 7) := by
  intro pre
  induction pre with
  | nil =>
    intro t post i _ h1 h2
    have := firstMatchIdx_eq_some h1 h2
    simp only [List.nil_append, extractPagesLoop, this]
  | cons u pre ih =>
    intro t post i hpre h1 h2
    have hn : firstMatchIdx allowO u = none :=
      firstMatchIdx_eq_none.mpr (hpre u (List.mem_cons_self u pre))
    simp only [List.cons_append, extractPagesLoop, hn]
    exact ih t post i (fun v hv j => hpre v (List.mem_cons_of_mem u hv) j) h1 h2

/-- Claim C3 (amended): the word_to_pdf.py content extractor scans the first
min(pageCount, 10) pages; if no page contains a `P[0-9O]{6}` match (or the PDF
is unreadable) it returns none rather than raising, and otherwise it returns
the leftmost match of the earliest matching page with every `O` after the
leading `P` replaced by `0`.  The PID_RENAME.py variant of the extractor
instead matches only `P` followed by six DIGITS and performs no O
normalization, so text whose only identifier writes zero as `O` yields none
there (see the counterexample). -/
theorem claim_C3_amended :
    extract_project_id none = none ∧
    (∀ pages : List FName, (∀ t ∈ pages.take 10, ∀ i, matchPidAt true t i = false) →
      extract_project_id (some pages) = none) ∧
    (∀ (pages pre : List FName) (t : FName) (post : List FName) (i : Nat),
      pages.take 10 = pre ++ t :: post →
      (∀ u ∈ pre, ∀ j, matchPidAt true u j = false) →
      matchPidAt true t i = true → (∀ j, j < i → matchPidAt true t j = false) →
      extract_project_id (some pages) = some (pidNormalize ((t.drop i).take 7))) := by
  refine ⟨rfl, ?_, ?_⟩
  · intro pages h
    show extractPagesLoop true true (pages.take 10) = none
    exact extractPagesLoop_none true true (pages.take 10) h
  · intro pages pre t post i hsplit hpre h1 h2
    show extractPagesLoop true true (pages.take 10) = _
    rw [hsplit]
    have := extractPagesLoop_found true true pre t post i hpre h1 h2
    simpa using this

/-- Claim C3 witness: the amended claim applied to a page whose identifier is
written with the OCR-confusable letter, normalizing `PO12345` to `P012345`. -/
theorem claim_C3_witness :
    extract_project_id (some ["ab PO12345".toList]) = some "P012345".toList := by
  have h := claim_C3_amended.2.2 ["ab PO12345".toList] [] "ab PO12345".toList [] 3 rfl
    (by simp) (by decide) (by decide)
  rw [h]
  decide

/-- Claim C3 counterexample: the claim as stated is false for the cited
PID_RENAME.py extractor: the same text whose pages contain the `P[0-9O]{6}`
substring `PO12345` yields none there (its pattern is `P\d{6}`), not
`P012345`. -/
theorem claim_C3_counterexample :
    (∃ i, matchPidAt true "xx PO12345 yy".toList i = true) ∧
    extract_project_id (some ["xx PO12345 yy".toList]) = some "P012345".toList ∧
    extract_project_id_pidr (some ["xx PO12345 yy".toList]) = none ∧
    (none : Option FName) ≠ some "P012345".toList := by
  refine ⟨⟨3, by decide⟩, by decide, by decide, by decide⟩

/-! ## Language classification -/

/-- Claim C4 (amended): the language classifier concatenates text from up to 3
pages stopping early once more than about 1000 characters are gathered, always
returns EN or NON and never raises; it returns NON when the PDF is unreadable,
when AT MOST 100 characters are available (the source requires strictly more
than 100, so exactly 100 characters also classify as NON), or when detection
fails; otherwise it returns EN iff the detected code is `en`. -/
theorem claim_C4_amended :
    (∀ rr detectFn, detect_language rr detectFn = "EN".toList ∨
      detect_language rr detectFn = "NON".toList) ∧
    (∀ detectFn, detect_language none detectFn = "NON".toList) ∧
    (∀ pages detectFn, (gatherText (pages.take 3) []).length ≤ 100 →
      detect_language (some pages) detectFn = "NON".toList) ∧
    (∀ pages detectFn, 100 < (gatherText (pages.take 3) []).length →
      detectFn (gatherText (pages.take 3) []) = none →
      detect_language (some pages) detectFn = "NON".toList) ∧
    (∀ pages detectFn lang, 100 < (gatherText (pages.take 3) []).length →
      detectFn (gatherText (pages.take 3) []) = some lang →
      detect_language (some pages) detectFn =
        (if lang = "en".toList then "EN".toList else "NON".toList)) ∧
    (∀ (t : FName) (rest : List FName) (acc : FName), t ≠ [] →
      1000 < (acc ++ t).length → gatherText (t :: rest) acc = acc ++ t) := by
  refine ⟨?_, fun _ => rfl, ?_, ?_, ?_, ?_⟩
  · intro rr detectFn
    cases rr with
    | none => exact Or.inr rfl
    | some pages =>
      simp only [detect_language]
      by_cases h : 100 < (gatherText (pages.take 3) []).length
      · rw [if_pos h]
        cases detectFn (gatherText (pages.take 3) []) with
        | none => exact Or.inr rfl
        | some lang =>
          show (if lang = "en".toList then "EN".toList else "NON".toList) = "EN".toList ∨
            (if lang = "en".toList then "EN".toList else "NON".toList) = "NON".toList
          by_cases hl : lang = "en".toList
          · rw [if_pos hl]
            exact Or.inl rfl
          · rw [if_neg hl]
            exact Or.inr rfl
      · rw [if_neg h]
        exact Or.inr rfl
  · intro pages detectFn h
    simp only [detect_language]
    rw [if_neg (by omega)]
  · intro pages detectFn h hdet
    simp only [detect_language]
    rw [if_pos h, hdet]
  · intro pages detectFn lang h hdet
    simp only [detect_language]
    rw [if_pos h, hdet]
  · intro t rest acc ht h1000
    have hemp : t.isEmpty = false := by
      cases t with
      | nil => exact absurd rfl ht
      | cons a l => rfl
    simp only [gatherText, hemp, Bool.false_eq_true, if_false, if_pos h1000]

/-- Claim C4 witness: the amended claim at a concrete 101-character English
page: the classifier returns EN. -/
theorem claim_C4_witness :
    detect_language (some [List.replicate 101 'a']) (fun _ => some "en".toList) = "EN".toList := by
  have h := claim_C4_amended.2.2.2.2.1 [List.replicate 101 'a'] (fun _ => some "en".toList)
    "en".toList (by decide) (by decide)
  rw [h]
  decide

/-- Claim C4 counterexample: the claim as stated is false at the 100-character
boundary: with exactly 100 characters available (not fewer than 100) and the
detection step succeeding with code `en`, the claim predicts EN but the source
(`if len(all_text) > 100`) classifies NON. -/
theorem claim_C4_counterexample :
    (gatherText ([List.replicate 100 'a'].take 3) []).length = 100 ∧
    detect_language (some [List.replicate 100 'a']) (fun _ => some "en".toList) = "NON".toList ∧
    "NON".toList ≠ "EN".toList := by
  refine ⟨by decide, by decide, by decide⟩

/-! ## Country-mapping loader -/

theorem dictInsert_key_prop (P : FName → Prop) {m : List (FName × FName)} {k v : FName}
    (hm : ∀ kv ∈ m, P kv.1) (hk : P k) : ∀ kv ∈ dictInsert m k v, P kv.1 := by
  intro kv hkv
  unfold dictInsert at hkv
  by_cases hc : m.any (fun kv => kv.1 == k)
  · rw [if_pos hc] at hkv
    obtain ⟨kv0, hkv0, hmap⟩ := List.mem_map.mp hkv
    by_cases he : kv0.1 == k
    · rw [if_pos he] at hmap
      rw [← hmap]
      exact hk
    · rw [if_neg he] at hmap
      rw [← hmap]
      exact hm kv0 hkv0
  · rw [if_neg hc] at hkv
    rcases List.mem_append.mp hkv with h | h
    · exact hm kv h
    · obtain rfl : kv = (k, v) := by simpa using h
      exact hk

theorem loadStep_key_prop {m : List (FName × FName)} {row : FName × FName}
    (hm : ∀ kv ∈ m, matchP6prefix kv.1 = true ∧
      kv.1.all (fun c => c == 'P' || c.isDigit) = true) :
    ∀ kv ∈ loadStep m row, matchP6prefix kv.1 = true ∧
      kv.1.all (fun c => c == 'P' || c.isDigit) = true := by
  intro kv hkv
  unfold loadStep at hkv
  by_cases h1 : (pyStrip row.1).isEmpty || (pyStrip row.2).isEmpty
  · rw [if_pos h1] at hkv
    exact hm kv hkv
  · rw [if_neg h1] at hkv
    set p1 := if !((pyStrip row.1).head? == some 'P') && pyIsDigit (pyStrip row.1)
      then 'P' :: pyStrip row.1 else pyStrip row.1 with hp1
    by_cases h2 : matchP6prefix (p1.filter (fun c => c == 'P' || c.isDigit))
    · rw [if_pos h2] at hkv
      refine dictInsert_key_prop
        (fun k => matchP6prefix k = true ∧ k.all (fun c => c == 'P' || c.isDigit) = true)
        hm ⟨h2, ?_⟩ kv hkv
      rw [List.all_eq_true]
      intro c hc
      exact (List.mem_filter.mp hc).2
    · rw [if_neg h2] at hkv
      exact hm kv hkv

theorem load_mapping_key_prop : ∀ (rows m : List (FName × FName)),
    (∀ kv ∈ m, matchP6prefix kv.1 = true ∧
      kv.1.all (fun c => c == 'P' || c.isDigit) = true) →
    ∀ kv ∈ rows.foldl loadStep m, matchP6prefix kv.1 = true ∧
      kv.1.all (fun c => c == 'P' || c.isDigit) = true := by
  intro rows
  induction rows with
  | nil => intro m hm; exact hm
  | cons row rest ih =>
    intro m hm
    exact ih (loadStep m row) (loadStep_key_prop hm)

/-- Claim C5 (amended): every key of the mapping built by
load_project_country_mapping starts with `P` immediately followed by six
digits and consists only of `P`s and digits — but the six-digit shape is only
a PREFIX requirement (`re.match(r'P\d{6}')` is not end-anchored), so keys
longer than seven characters, e.g. `P1234567`, do occur; rows whose stripped
identifier or country is empty, or whose cleaned identifier fails the prefix
test, contribute no entry. -/
theorem claim_C5_amended :
    (∀ rows kv, kv ∈ load_project_country_mapping rows →
      matchP6prefix kv.1 = true ∧ kv.1.all (fun c => c == 'P' || c.isDigit) = true) ∧
    (∀ (m : List (FName × FName)) (r c : FName),
      (pyStrip r).isEmpty || (pyStrip c).isEmpty → loadStep m (r, c) = m) ∧
    (∀ (m : List (FName × FName)) (r c : FName),
      matchP6prefix ((if !((pyStrip r).head? == some 'P') && pyIsDigit (pyStrip r)
          then 'P' :: pyStrip r else pyStrip r).filter
        (fun ch => ch == 'P' || ch.isDigit)) = false →
      loadStep m (r, c) = m) := by
  refine ⟨?_, ?_, ?_⟩
  · intro rows kv hkv
    exact load_mapping_key_prop rows [] (by intro kv h; simp at h) kv hkv
  · intro m r c h
    unfold loadStep
    rw [if_pos h]
  · intro m r c h
    unfold loadStep
    by_cases h1 : (pyStrip r).isEmpty || (pyStrip c).isEmpty
    · rw [if_pos h1]
    · rw [if_neg h1]
      simp only at h ⊢
      rw [h]
      simp

/-- Claim C5 witness: the amended key property at a concrete loaded row. -/
theorem claim_C5_witness :
    matchP6prefix "P123456".toList = true ∧
    ("P123456".toList).all (fun c => c == 'P' || c.isDigit) = true :=
  claim_C5_amended.1 [("P123456".toList, "Kenya".toList)]
    ("P123456".toList, "Kenya".toList) (by decide)

/-- Claim C5 counterexample: the claim as stated is false: a row whose
identifier cell is `P1234567` (seven digits) passes the prefix-only
`re.match(r'P\d{6}')` test and contributes the key `P1234567`, which does not
match `P` followed by EXACTLY six digits. -/
theorem claim_C5_counterexample :
    load_project_country_mapping [("P1234567".toList, "Kenya".toList)] =
      [("P1234567".toList, "Kenya".toList)] ∧
    exactP6 "P1234567".toList = false := by
  refine ⟨by decide, by decide⟩

/-! ## process_file and process_and_rename_document -/

theorem get_unique_filename_ne_none (dir : List FName) (base : FName) :
    get_unique_filename dir base ≠ none := by
  unfold get_unique_filename
  by_cases hm : base ∈ dir
  · rw [if_pos hm]
    have := findFreeName_isSome dir (mkCounterName (splitext base).1 (splitext base).2)
      (mkCounterName_inj _ _) 1
    intro h
    rw [h] at this
    simp at this
  · rw [if_neg hm]
    simp

theorem get_unique_filename_of_not_mem {dir : List FName} {base : FName} (h : base ∉ dir) :
    get_unique_filename dir base = some base := by
  unfold get_unique_filename
  rw [if_neg h]

theorem basePidTarget_ne_none (dir : List FName) (pid : FName) :
    basePidTarget dir pid ≠ none := by
  unfold basePidTarget
  by_cases hm : pid ++ pdfExt ∈ dir
  · rw [if_pos hm]
    have := findFreeName_isSome dir (mkCounterName pid pdfExt) (mkCounterName_inj _ _) 1
    intro h
    rw [h] at this
    simp at this
  · rw [if_neg hm]
    simp

theorem finalTarget_ne_none (dir : List FName) (self fbase : FName) :
    finalTarget dir self fbase ≠ none := by
  unfold finalTarget
  by_cases hm : fbase ++ pdfExt ∈ dir.filter (fun x => !(x == self))
  · rw [if_pos hm]
    have := findFreeName_isSome (dir.filter (fun x => !(x == self)))
      (mkCounterName fbase pdfExt) (mkCounterName_inj _ _) 1
    intro h
    rw [h] at this
    simp at this
  · rw [if_neg hm]
    simp

/-- Claim C6 (amended): in the word_to_pdf.py pipeline, an input whose
conversion succeeds but in which no project identifier is detected (neither in
content nor in the filename) keeps its converted output under the original
stem with a `.pdf` extension (disambiguated only if that name was taken) and
the per-file result is a success; when conversion fails the directory is
unchanged.  The PID_RENAME.py variant does NOT keep such a file: when a
converted Word document yields no identifier, the converted PDF is deleted
again (see the counterexample). -/
theorem claim_C6_amended :
    (∀ (dir : List FName) (stem : FName) (env : PFEnv) (mapping : List (FName × FName)),
      env.conversionOk = true → env.contentPid = none → env.filenamePid = none →
      ∃ op, get_unique_filename dir (stem ++ pdfExt) = some op ∧
        process_file dir stem env mapping = some (op :: dir, ⟨true, none, none⟩) ∧
        op ∉ dir ∧ (stem ++ pdfExt ∉ dir → op = stem ++ pdfExt)) ∧
    (∀ (dir : List FName) (stem : FName) (env : PFEnv) (mapping : List (FName × FName)),
      env.conversionOk = false →
      process_file dir stem env mapping =
        some (dir, ⟨false, some "conversion failed".toList, none⟩)) ∧
    (∀ (st : List FName) (docname : FName),
      lowerName (splitext docname).2 = ".doc".toList ∨
        lowerName (splitext docname).2 = ".docx".toList →
      process_and_rename_document st docname true none =
        some ((fsInsert st ((splitext docname).1 ++ pdfExt)).erase
          ((splitext docname).1 ++ pdfExt), false) ∧
      ((splitext docname).1 ++ pdfExt ∉ st →
        (fsInsert st ((splitext docname).1 ++ pdfExt)).erase
          ((splitext docname).1 ++ pdfExt) = st)) := by
  refine ⟨?_, ?_, ?_⟩
  · intro dir stem env mapping hconv hcp hfp
    cases hgu : get_unique_filename dir (stem ++ pdfExt) with
    | none => exact absurd hgu (get_unique_filename_ne_none dir (stem ++ pdfExt))
    | some op =>
      refine ⟨op, rfl, ?_, get_unique_filename_not_mem hgu, ?_⟩
      · simp only [process_file, hgu, hconv, hcp, hfp, if_true]
      · intro hni
        have := get_unique_filename_of_not_mem hni
        rw [hgu] at this
        simpa using this
  · intro dir stem env mapping hconv
    cases hgu : get_unique_filename dir (stem ++ pdfExt) with
    | none => exact absurd hgu (get_unique_filename_ne_none dir (stem ++ pdfExt))
    | some op =>
      simp only [process_file, hgu, hconv, Bool.false_eq_true, if_false]
  · intro st docname hsuf
    constructor
    · simp only [process_and_rename_document, if_pos hsuf, if_true]
    · intro hni
      unfold fsInsert
      rw [if_neg hni, List.erase_cons_head]

/-- Claim C6 witness: the amended claim at a concrete input: conversion
succeeds, no identifier anywhere, and the output stays as `report.pdf`. -/
theorem claim_C6_witness :
    process_file ["other.pdf".toList] "report".toList
      ⟨true, none, none, "EN".toList, true, true⟩ [] =
      some ("report.pdf".toList :: ["other.pdf".toList], ⟨true, none, none⟩) := by
  obtain ⟨op, hgu, hpf, _, hfree⟩ := claim_C6_amended.1 ["other.pdf".toList] "report".toList
    ⟨true, none, none, "EN".toList, true, true⟩ [] rfl rfl rfl
  have hop : op = "report.pdf".toList := by
    have := hfree (by decide)
    simpa using this
  rw [hop] at hpf
  exact hpf

/-- Claim C6 counterexample: the claim as stated is false for the cited
PID_RENAME.py path: `report.docx` converts successfully, no identifier is
found, and the converted `report.pdf` is deleted rather than kept — the final
directory contains no PDF at all although conversion succeeded. -/
theorem claim_C6_counterexample :
    process_and_rename_document ["report.docx".toList] "report.docx".toList true none =
      some (["report.docx".toList], false) ∧
    "report.pdf".toList ∉ ["report.docx".toList] := by
  refine ⟨by decide, by decide⟩

/-- Claim C8 (amended): after a successful conversion with an identifier
found, a failed OS-level rename leaves the per-file outcome successful and the
file on disk under its prior name; the identifier is still reported as found
when the FINAL rename fails, but when the FIRST (base-identifier) rename
fails, process_file returns an outcome with no identifier at all. -/
theorem claim_C8_amended :
    ∀ (dir : List FName) (stem : FName) (env : PFEnv) (mapping : List (FName × FName))
      (pid : FName), env.conversionOk = true → env.contentPid = some pid →
    (env.firstRenameOk = false →
      ∃ op, get_unique_filename dir (stem ++ pdfExt) = some op ∧
        process_file dir stem env mapping = some (op :: dir, ⟨true, none, none⟩) ∧
        op ∈ op :: dir) ∧
    (env.firstRenameOk = true → env.finalRenameOk = false →
      ∃ op base, get_unique_filename dir (stem ++ pdfExt) = some op ∧
        basePidTarget (op :: dir) pid = some base ∧
        process_file dir stem env mapping = some (base :: dir, ⟨true, none, some pid⟩) ∧
        base ∈ base :: dir) := by
  intro dir stem env mapping pid hconv hcp
  cases hgu : get_unique_filename dir (stem ++ pdfExt) with
  | none => exact absurd hgu (get_unique_filename_ne_none dir (stem ++ pdfExt))
  | some op =>
    cases hbase : basePidTarget (op :: dir) pid with
    | none => exact absurd hbase (basePidTarget_ne_none (op :: dir) pid)
    | some base =>
      constructor
      · intro hfr
        refine ⟨op, rfl, ?_, List.mem_cons_self op dir⟩
        simp only [process_file, hgu, hconv, hcp, hbase, hfr, if_true, Bool.false_eq_true,
          if_false]
      · intro hfr hff
        refine ⟨op, base, rfl, hbase, ?_, List.mem_cons_self base dir⟩
        simp only [process_file, hgu, hconv, hcp, hbase, hfr, if_true]
        rw [List.erase_cons_head]
        split
        · next hft =>
          exact absurd hft (finalTarget_ne_none _ _ _)
        · next fp hft =>
          simp only [hff, Bool.false_eq_true, if_false]

/-- Claim C8 witness: the amended claim at a concrete run whose final rename
fails: the outcome is successful, the file stays under the base-identifier
name, and the identifier is reported. -/
theorem claim_C8_witness :
    process_file [] "doc".toList ⟨true, some "P123456".toList, none, "EN".toList, true, false⟩ []
      = some (["P123456.pdf".toList], ⟨true, none, some "P123456".toList⟩) := by
  obtain ⟨_, h2⟩ := claim_C8_amended [] "doc".toList
    ⟨true, some "P123456".toList, none, "EN".toList, true, false⟩ [] "P123456".toList rfl rfl
  obtain ⟨op, base, hgu, hbase, hpf, _⟩ := h2 rfl rfl
  have hop : op = "doc.pdf".toList := Option.some.inj (hgu.symm.trans (by decide))
  subst hop
  have hb : base = "P123456.pdf".toList := Option.some.inj (hbase.symm.trans (by decide))
  subst hb
  exact hpf

/-- Claim C8 counterexample: the claim as stated is false at the cited first
(base-identifier) rename step: with the identifier `P123456` found in content
and the first rename failing, process_file returns success (and the file stays
as `doc.pdf`) but reports NO identifier in the result. -/
theorem claim_C8_counterexample :
    process_file [] "doc".toList ⟨true, some "P123456".toList, none, "EN".toList, false, true⟩ []
      = some (["doc.pdf".toList], ⟨true, none, none⟩) ∧
    (some "P123456".toList ≠ (none : Option FName)) := by
  refine ⟨by decide, by decide⟩

/-! ## Orchestrator summary counts -/

theorem convert_folder_go_const : ∀ (bs : List (List ConvResult)) (counts : Nat × Nat),
    convert_folder_go bs counts = counts := by
  intro bs
  induction bs with
  | nil => intro counts; rfl
  | cons b rest ih => intro counts; exact ih counts

/-- Claim C9: the claim is right and the code is wrong: convert_folder_to_pdf
initializes `successful = failed = 0` and its batch loop never updates either
variable (process_batch returns only `len(batch)`), so the printed summary is
always (0, 0).  On a batch with two successes and one conversion failure the
code reports 0 succeeded / 0 failed instead of 2 / 1: the failure count does
not increment. -/
theorem claim_C9_bug :
    (∀ batches : List (List ConvResult), convert_folder_counts batches = (0, 0)) ∧
    convert_folder_counts [[⟨true, none⟩, ⟨true, none⟩, ⟨false, some "err".toList⟩]] = (0, 0) ∧
    actualSucceeded [[⟨true, none⟩, ⟨true, none⟩, ⟨false, some "err".toList⟩]] = 2 ∧
    actualFailed [[⟨true, none⟩, ⟨true, none⟩, ⟨false, some "err".toList⟩]] = 1 ∧
    ((0, 0) : Nat × Nat) ≠ (2, 1) := by
  refine ⟨fun batches => convert_folder_go_const batches (0, 0), rfl, by decide, by decide,
    by decide⟩

/-! ## The reconciliation disambiguation loop -/

theorem reconNext_digit_const (pid country : FName) (parts : List FName) (c : Nat)
    (h1 : 1 < parts.length ∧ pdfExt <:+ parts.getLast?.getD [])
    (h2 : pyIsDigit ((pySplit '.' (parts.getLast?.getD [])).head?.getD []) = true) :
    reconNext pid country parts c = pyJoin '_' (pid :: country :: parts.tail) := by
  simp only [reconNext]
  rw [if_pos h1, if_pos h2]

theorem reconNext_const10 : ∀ c, reconNext "P123456".toList "Kenya".toList exParts10 c
    = exCand10 := by
  intro c
  rw [reconNext_digit_const "P123456".toList "Kenya".toList exParts10 c (by decide) (by decide)]
  decide

theorem reconLoop10_diverges : ∀ fuel c, reconLoop exSt10 exDirName exOrig10 "P123456".toList
    "Kenya".toList exParts10 exCand10 c fuel = none := by
  intro fuel
  induction fuel with
  | zero => intro c; rfl
  | succ f ih =>
    intro c
    simp only [reconLoop]
    rw [if_pos (by decide), reconNext_const10 c]
    exact ih (c + 1)

/-- Claim C10: the claim is right and the code is wrong: when the scanned
filename's last underscore-part is a bare numeric counter ending in `.pdf`
(here `P123456_01.pdf`) and the country-inserted candidate already exists, the
`base.isdigit()` branch of the duplicate-name loop rebuilds the SAME candidate
on every iteration (the incremented counter is never used), so the loop never
reaches a free name: the whole reconciliation pass diverges for every fuel. -/
theorem claim_C10_bug :
    reconPlan exMapping exOrig10 = some ("P123456".toList, "Kenya".toList, exParts10) ∧
    reconInit "P123456".toList "Kenya".toList exParts10 = exCand10 ∧
    (⟨exDirName, exCand10⟩ : FsFile) ∈ exSt10 ∧ exCand10 ≠ exOrig10 ∧
    (∀ counter fuel, reconLoop exSt10 exDirName exOrig10 "P123456".toList "Kenya".toList
      exParts10 exCand10 counter fuel = none) ∧
    (∀ fuel, apply_country_mapping_to_existing_files exMapping exSt10 fuel = none) := by
  refine ⟨by decide, by decide, by decide, by decide,
    fun counter fuel => reconLoop10_diverges fuel counter, ?_⟩
  intro fuel
  unfold apply_country_mapping_to_existing_files
  rw [if_neg (by decide)]
  have hfilter : exSt10.filter (fun e => isPdfName e.fname) = exSt10 := by decide
  rw [hfilter]
  rw [show exSt10 = ⟨exDirName, exOrig10⟩ :: [⟨exDirName, exCand10⟩] from rfl]
  simp only [reconGo]
  have hplan : reconPlan exMapping exOrig10 =
      some ("P123456".toList, "Kenya".toList, exParts10) := by decide
  have hinit : reconInit "P123456".toList "Kenya".toList exParts10 = exCand10 := by decide
  simp only [reconStep, hplan, hinit]
  rw [show (⟨exDirName, exOrig10⟩ : FsFile) :: [⟨exDirName, exCand10⟩] = exSt10 from rfl]
  rw [reconLoop10_diverges fuel 1]

/-! ## Reconciliation pass: idempotence infrastructure -/

theorem pyJoin_head_prefix (sep : Char) (b : FName) (L : List FName) :
    ∃ s, pyJoin sep (b :: L) = b ++ s := by
  cases L with
  | nil => exact ⟨[], (List.append_nil b).symm⟩
  | cons c L2 => exact ⟨sep :: pyJoin sep (c :: L2), rfl⟩

theorem pyJoin_pid_shape (pid country : FName) (L : List FName) :
    ∃ s, pyJoin '_' (pid :: country :: L) = pid ++ '_' :: (country ++ s) := by
  obtain ⟨s, hs⟩ := pyJoin_head_prefix '_' country L
  refine ⟨s, ?_⟩
  show pid ++ '_' :: pyJoin '_' (country :: L) = pid ++ '_' :: (country ++ s)
  rw [hs]

theorem reconNext_shape (pid country : FName) (parts : List FName) (counter : Nat) :
    ∃ s, reconNext pid country parts counter = pid ++ '_' :: (country ++ s) := by
  simp only [reconNext]
  split
  · split
    · exact pyJoin_pid_shape pid country parts.tail
    · exact pyJoin_pid_shape pid country (parts.tail.dropLast ++ [pad2 counter ++ pdfExt])
  · exact pyJoin_pid_shape pid country (parts.tail ++ [pad2 counter ++ pdfExt])

theorem reconInit_shape (pid country : FName) (parts : List FName) :
    ∃ s, reconInit pid country parts = pid ++ '_' :: (country ++ s) := by
  simp only [reconInit]
  split
  · exact pyJoin_pid_shape pid country parts.tail
  · exact ⟨pdfExt, rfl⟩

theorem reconLoop_shape (st : List FsFile) (d orig pid country : FName) (parts : List FName) :
    ∀ fuel cur counter r, (∃ s, cur = pid ++ '_' :: (country ++ s)) →
    reconLoop st d orig pid country parts cur counter fuel = some r →
    ∃ s, r = pid ++ '_' :: (country ++ s) := by
  intro fuel
  induction fuel with
  | zero => intro cur counter r _ h; simp [reconLoop] at h
  | succ f ih =>
    intro cur counter r hcur h
    simp only [reconLoop] at h
    by_cases hc : (⟨d, cur⟩ : FsFile) ∈ st ∧ cur ≠ orig
    · rw [if_pos hc] at h
      exact ih _ _ r (reconNext_shape pid country parts counter) h
    · rw [if_neg hc] at h
      obtain rfl : cur = r := by simpa using h
      exact hcur

theorem firstPidIn_shape {fn pid : FName} (h : firstPidIn fn = some pid) :
    ∃ ds, pid = 'P' :: ds ∧ ds.length = 6 ∧ ds.all Char.isDigit = true := by
  unfold firstPidIn at h
  cases hfm : firstMatchIdx false fn with
  | none => rw [hfm] at h; simp at h
  | some i =>
    rw [hfm] at h
    have hp : (fn.drop i).take 7 = pid := by simpa using h
    have hm := (firstSat_some fn.length 0 i hfm).1
    unfold matchPidAt at hm
    cases hd : fn.drop i with
    | nil => rw [hd] at hm; simp at hm
    | cons c rest =>
      rw [hd] at hm
      simp only [Bool.and_eq_true, beq_iff_eq] at hm
      obtain ⟨⟨hc, hlen⟩, hall⟩ := hm
      refine ⟨rest.take 6, ?_, hlen, ?_⟩
      · rw [← hp, hd, hc]
        rfl
      · rw [List.all_eq_true]
        intro x hx
        have := (List.all_eq_true.mp hall) x hx
        simpa [pidChar] using this

theorem firstPidIn_prefix (ds t : FName) (hlen : ds.length = 6)
    (hdig : ds.all Char.isDigit = true) :
    firstPidIn (('P' :: ds) ++ '_' :: t) = some ('P' :: ds) := by
  have htake : (ds ++ '_' :: t).take 6 = ds := by
    rw [← hlen]
    exact List.take_left ds ('_' :: t)
  have hall2 : ds.all (pidChar false) = true := by
    rw [List.all_eq_true]
    intro x hx
    have := (List.all_eq_true.mp hdig) x hx
    simp [pidChar, this]
  have hm : matchPidAt false (('P' :: ds) ++ '_' :: t) 0 = true := by
    show (('P' : Char) == 'P' && (((ds ++ '_' :: t).take 6).length == 6) &&
      (((ds ++ '_' :: t).take 6).all (pidChar false))) = true
    rw [htake]
    simp [hlen, hall2]
  have h0 : firstMatchIdx false (('P' :: ds) ++ '_' :: t) = some 0 := by
    unfold firstMatchIdx
    have hlen2 : (('P' :: ds) ++ '_' :: t).length = (ds ++ '_' :: t).length + 1 := by simp
    rw [hlen2]
    simp only [firstSat]
    rw [if_pos hm]
  unfold firstPidIn
  rw [h0]
  show some ((('P' :: ds) ++ '_' :: t).take 7) = some ('P' :: ds)
  have : (('P' :: ds) ++ '_' :: t).take 7 = 'P' :: (ds ++ '_' :: t).take 6 := rfl
  rw [this, htake]

theorem reconPlan_renamed_none (mapping : List (FName × FName)) (ds t country c0 : FName)
    (hlen : ds.length = 6) (hdig : ds.all Char.isDigit = true)
    (hlk : lookupName mapping ('P' :: ds) = some c0) (hc : country = underscored c0) :
    reconPlan mapping (('P' :: ds) ++ '_' :: (country ++ t)) = none := by
  have hfp := firstPidIn_prefix ds (country ++ t) hlen hdig
  have hinf : country <:+: (('P' :: ds) ++ '_' :: (country ++ t)) :=
    ⟨('P' :: ds) ++ ['_'], t, by simp⟩
  simp only [reconPlan, hfp, hlk]
  rw [← hc, decide_eq_true hinf]
  rfl

theorem reconPlan_some_facts {mapping : List (FName × FName)} {fn pid country : FName}
    {parts : List FName} (h : reconPlan mapping fn = some (pid, country, parts)) :
    (∃ ds, pid = 'P' :: ds ∧ ds.length = 6 ∧ ds.all Char.isDigit = true) ∧
    (∃ c0, lookupName mapping pid = some c0 ∧ country = underscored c0) ∧
    ¬(country <:+: fn) := by
  unfold reconPlan at h
  cases hfp : firstPidIn fn with
  | none => rw [hfp] at h; simp at h
  | some pid0 =>
    rw [hfp] at h
    simp only [] at h
    cases hlk : lookupName mapping pid0 with
    | none => rw [hlk] at h; simp at h
    | some c0 =>
      rw [hlk] at h
      simp only [] at h
      by_cases hinf : (underscored c0 <:+: fn)
      · rw [decide_eq_true hinf] at h
        simp at h
      · rw [decide_eq_false hinf] at h
        simp only [Bool.false_eq_true, if_false] at h
        by_cases hh : (if '_' ∈ fn then pySplit '_' fn
            else [fn.take (fn.length - 4)]).head? = some pid0
        · rw [if_pos hh] at h
          have h' := Option.some.inj h
          have e1 : pid0 = pid := congrArg Prod.fst h'
          have e2 : underscored c0 = country := congrArg (fun x => x.2.1) h'
          refine ⟨?_, ⟨c0, ?_, e2.symm⟩, ?_⟩
          · exact e1 ▸ firstPidIn_shape hfp
          · rw [← e1]; exact hlk
          · rw [← e2]; exact hinf
        · rw [if_neg hh] at h
          simp at h

theorem reconStep_cases {mapping : List (FName × FName)} {st : List FsFile} {f : FsFile}
    {fuel : Nat} {st1 : List FsFile} {b : Bool}
    (h : reconStep mapping st f fuel = some (st1, b)) :
    (reconPlan mapping f.fname = none ∧ st1 = st ∧ b = false) ∨
    (∃ newname, reconPlan mapping newname = none ∧
      st1 = ⟨f.dir, newname⟩ :: st.erase f ∧ b = true ∧
      (⟨f.dir, newname⟩ : FsFile) ∉ st) := by
  unfold reconStep at h
  cases hplan : reconPlan mapping f.fname with
  | none =>
    rw [hplan] at h
    have h' := Option.some.inj h
    exact Or.inl ⟨rfl, (congrArg Prod.fst h').symm, (congrArg Prod.snd h').symm⟩
  | some pcp =>
    obtain ⟨pid, country, parts⟩ := pcp
    rw [hplan] at h
    simp only [] at h
    cases hloop : reconLoop st f.dir f.fname pid country parts
        (reconInit pid country parts) 1 fuel with
    | none => rw [hloop] at h; simp at h
    | some newname =>
      rw [hloop] at h
      have h' := Option.some.inj h
      obtain ⟨⟨ds, hpid, hlen, hdig⟩, ⟨c0, hlk, hc⟩, hninf⟩ := reconPlan_some_facts hplan
      obtain ⟨s, hshape⟩ := reconLoop_shape st f.dir f.fname pid country parts fuel
        (reconInit pid country parts) 1 newname (reconInit_shape pid country parts) hloop
      have hplannew : reconPlan mapping newname = none := by
        rw [hshape, hpid]
        exact reconPlan_renamed_none mapping ds s country c0 hlen hdig (hpid ▸ hlk) hc
      have hinfnew : country <:+: newname := by
        rw [hshape]
        exact ⟨pid ++ ['_'], s, by simp⟩
      have hne : newname ≠ f.fname := by
        intro he
        exact hninf (he ▸ hinfnew)
      have hnotin : (⟨f.dir, newname⟩ : FsFile) ∉ st := by
        rcases reconLoop_some_spec fuel (reconInit pid country parts) 1 newname hloop with
          h1 | h1
        · exact h1
        · exact absurd h1 hne
      exact Or.inr ⟨newname, hplannew, (congrArg Prod.fst h').symm,
        (congrArg Prod.snd h').symm, hnotin⟩

theorem reconGo_noop (mapping : List (FName × FName)) (fuel : Nat) :
    ∀ (scan st : List FsFile) (acc : Nat),
    (∀ f ∈ scan, reconPlan mapping f.fname = none) →
    reconGo mapping fuel scan st acc = some (st, acc) := by
  intro scan
  induction scan with
  | nil => intro st acc _; rfl
  | cons f rest ih =>
    intro st acc hall
    have hplan := hall f (List.mem_cons_self f rest)
    simp only [reconGo, reconStep, hplan]
    exact ih st acc (fun g hg => hall g (List.mem_cons_of_mem f hg))

theorem reconGo_post (mapping : List (FName × FName)) (fuel : Nat) :
    ∀ (scan st : List FsFile) (acc : Nat) (st2 : List FsFile) (n : Nat),
    st.Nodup →
    (∀ e ∈ st, isPdfName e.fname = true → reconPlan mapping e.fname ≠ none → e ∈ scan) →
    reconGo mapping fuel scan st acc = some (st2, n) →
    (∀ e ∈ st2, isPdfName e.fname = true → reconPlan mapping e.fname = none) ∧ st2.Nodup := by
  intro scan
  induction scan with
  | nil =>
    intro st acc st2 n hnd hinv h
    have h' := Option.some.inj h
    have e1 : st = st2 := congrArg Prod.fst h'
    subst e1
    refine ⟨?_, hnd⟩
    intro e he hpdf
    by_cases hp : reconPlan mapping e.fname = none
    · exact hp
    · exact absurd (hinv e he hpdf hp) (List.not_mem_nil e)
  | cons f rest ih =>
    intro st acc st2 n hnd hinv h
    simp only [reconGo] at h
    cases hstep : reconStep mapping st f fuel with
    | none => rw [hstep] at h; simp at h
    | some sb =>
      obtain ⟨stm, b⟩ := sb
      rw [hstep] at h
      simp only [] at h
      rcases reconStep_cases hstep with ⟨hplanf, hst, _⟩ | ⟨newname, hplannew, hst, _, hnotin⟩
      · rw [hst] at h
        refine ih st _ st2 n hnd ?_ h
        intro e he hpdf hp
        rcases List.mem_cons.mp (hinv e he hpdf hp) with he1 | he1
        · exact absurd (by rw [he1]; exact hplanf) hp
        · exact he1
      · rw [hst] at h
        have hnd2 : ((⟨f.dir, newname⟩ : FsFile) :: st.erase f).Nodup := by
          refine List.nodup_cons.mpr ⟨?_, hnd.erase f⟩
          intro hmem
          exact hnotin (List.mem_of_mem_erase hmem)
        refine ih _ _ st2 n hnd2 ?_ h
        intro e he hpdf hp
        rcases List.mem_cons.mp he with he1 | he1
        · exact absurd (by rw [he1]; exact hplannew) hp
        · obtain ⟨hne, hest⟩ := (List.Nodup.mem_erase_iff hnd).mp he1
          rcases List.mem_cons.mp (hinv e hest hpdf hp) with he2 | he2
          · exact absurd he2 hne
          · exact he2

/-- Claim C7: the reconciliation pass is idempotent: for every (duplicate-free)
output tree and every country mapping, if one run of
apply_country_mapping_to_existing_files completes with result tree `st2`, then
running the pass again on `st2` with the same mapping (any fuel) completes,
changes nothing, and updates 0 files. -/
theorem claim_C7 :
    ∀ (mapping : List (FName × FName)) (st : List FsFile) (fuel fuel2 : Nat)
      (st2 : List FsFile) (n : Nat), st.Nodup →
    apply_country_mapping_to_existing_files mapping st fuel = some (st2, n) →
    apply_country_mapping_to_existing_files mapping st2 fuel2 = some (st2, 0) := by
  intro mapping st fuel fuel2 st2 n hnd hpass
  unfold apply_country_mapping_to_existing_files at hpass ⊢
  cases hme : mapping.isEmpty with
  | true =>
    simp only [hme, if_true]
  | false =>
    simp only [hme, Bool.false_eq_true, if_false] at hpass ⊢
    have hinv : ∀ e ∈ st, isPdfName e.fname = true → reconPlan mapping e.fname ≠ none →
        e ∈ st.filter (fun e => isPdfName e.fname) := by
      intro e he hpdf _
      exact List.mem_filter.mpr ⟨he, hpdf⟩
    obtain ⟨hall, _⟩ := reconGo_post mapping fuel _ st 0 st2 n hnd hinv hpass
    apply reconGo_noop
    intro f hf
    obtain ⟨hf1, hf2⟩ := List.mem_filter.mp hf
    exact hall f hf1 hf2

/-- Claim C7 witness: a concrete completing first pass (one file gains its
country segment, 1 update) after which the second pass updates 0 files and
leaves the tree unchanged. -/
theorem claim_C7_witness :
    apply_country_mapping_to_existing_files exMapping exSt7b 5 = some (exSt7b, 0) :=
  claim_C7 exMapping exSt7 5 5 exSt7b 1 (by decide) (by decide)
